import Mathlib

/-!
Verification of the etna backtesting core against its sources.

Embedded files:
* `src/etna/model_selection/backtest.py` — `TimeSeriesCrossValidation`
  (fold planning, validation, backtest orchestration, aggregation queries);
* `src/etna/transforms/decomposition/change_points_based/change_points_models/base.py`
  — `BaseChangePointsModelAdapter._build_intervals`.

Modelling conventions: Python ints are `ℤ` (index arithmetic in
`_generate_folds_dataframes` can go negative, so `ℕ` would be unfaithful);
metric values are `ℚ`; pandas dataframes are modelled as the lists of
rows/columns the code builds; Python exceptions are `Except`.
-/

namespace Etna

/-- `CrossValidationMode` enum from backtest.py: members `expand` and `constant`. -/
inductive CrossValidationMode where
  | expand
  | constant
deriving DecidableEq

/-- `self._constant_history_length`: set to `0` for `expand` and `1` for
`constant` in `TimeSeriesCrossValidation.__init__`. -/
def constant_history_length : CrossValidationMode → ℤ
  | .expand => 0
  | .constant => 1

/-- The four indices computed for one fold inside
`_generate_folds_dataframes` (positions into the timestamp axis). -/
structure FoldIndices where
  min_train_idx : ℤ
  max_train_idx : ℤ
  min_test_idx : ℤ
  max_test_idx : ℤ
deriving DecidableEq

/-- Body of the loop in `_generate_folds_dataframes` for one value of
`offset`, with `N = len(timestamps)`, `K = n_folds`, `H = horizon`:
`min_train_idx = min_timestamp_idx + (n_folds - offset) * horizon * constant_history_length`,
`max_train_idx = max_timestamp_idx - horizon * offset - 1`,
`min_test_idx = max_train_idx + 1`, `max_test_idx = max_train_idx + horizon`. -/
def fold_at_offset (N K H : ℕ) (mode : CrossValidationMode) (offset : ℤ) : FoldIndices :=
  let min_timestamp_idx : ℤ := 0
  let max_timestamp_idx : ℤ := N
  let min_train_idx := min_timestamp_idx + ((K : ℤ) - offset) * H * constant_history_length mode
  let max_train_idx := max_timestamp_idx - H * offset - 1
  { min_train_idx := min_train_idx
    max_train_idx := max_train_idx
    min_test_idx := max_train_idx + 1
    max_test_idx := max_train_idx + H }

/-- The fold sequence of `_generate_folds_dataframes`: one `FoldIndices`
per `offset` in `range(n_folds, 0, -1)`, i.e. offsets `K, K-1, …, 1`,
so the list position `i` (the `fold_number` assigned by `enumerate` in
`backtest`) corresponds to `offset = K - i`. -/
def generate_folds (N K H : ℕ) (mode : CrossValidationMode) : List FoldIndices :=
  ((List.range K).map (fun i : ℕ => (K : ℤ) - (i : ℤ))).map (fold_at_offset N K H mode)

/-- Fold number `i` of the generated sequence, as a function of `i`. -/
def fold_spec (N K H : ℕ) (mode : CrossValidationMode) (i : ℕ) : FoldIndices :=
  fold_at_offset N K H mode ((K : ℤ) - i)

/-- `x` is a position inside the (inclusive) train index range of a fold. -/
def mem_train (x : ℤ) (f : FoldIndices) : Prop :=
  f.min_train_idx ≤ x ∧ x ≤ f.max_train_idx

/-- `x` is a position inside the (inclusive) test index range of a fold. -/
def mem_test (x : ℤ) (f : FoldIndices) : Prop :=
  f.min_test_idx ≤ x ∧ x ≤ f.max_test_idx

instance (x : ℤ) (f : FoldIndices) : Decidable (mem_train x f) :=
  inferInstanceAs (Decidable (_ ∧ _))

instance (x : ℤ) (f : FoldIndices) : Decidable (mem_test x f) :=
  inferInstanceAs (Decidable (_ ∧ _))

/-! ### `_build_intervals` (change_points_models/base.py) -/

/-- `BaseChangePointsModelAdapter._build_intervals`:
`change_points = [None] + sorted(change_points) + [None]`;
`intervals = list(zip(change_points[:-1], change_points[1:]))`.
Python's `sorted` (stable, ascending) is modelled by `List.insertionSort`,
`None` by `Option.none`, and `zip(l[:-1], l[1:])` by `l.zip l.tail`
(`zip` truncates to the shorter list, exactly like Python's `zip`). -/
def build_intervals (change_points : List ℤ) : List (Option ℤ × Option ℤ) :=
  let pts := [none] ++ (List.insertionSort (· ≤ ·) change_points).map some ++ [(none : Option ℤ)]
  pts.zip pts.tail

/-- Strict order on interval endpoints: vacuous when either side is the
unbounded sentinel `none`. -/
def endpoint_lt (a b : Option ℤ) : Prop :=
  ∀ x y : ℤ, a = some x → b = some y → x < y

/-! ### `TimeSeriesCrossValidation` state, queries and orchestration -/

/-- A forecast `TSDataset` as used by `get_forecasts`: its list of segment
names and its dataframe, abstracted as an ordered list of columns keyed by
`(segment, feature)` with one abstract value per column. -/
structure Forecast where
  segments : List String
  df : List ((String × String) × ℤ)
deriving DecidableEq

/-- pandas `df.loc[:, (segment, feature)] = value`: overwrite the column when
the key is present, otherwise append it as a new last column. -/
def set_column (df : List ((String × String) × ℤ)) (key : String × String) (v : ℤ) :
    List ((String × String) × ℤ) :=
  if df.any (fun c => c.1 == key) then
    df.map (fun c => if c.1 == key then (key, v) else c)
  else df ++ [(key, v)]

/-- The `fold` dict built by `_run_fold`: the train/test timeranges, the
forecast object, and the fold's metrics, stored as the rows of
`pd.DataFrame(fold["metrics"]).reset_index()` — per segment, the segment name
and its value for each configured metric in metric order. -/
structure FoldResult where
  train_start : ℤ
  train_end : ℤ
  test_start : ℤ
  test_end : ℤ
  forecast : Forecast
  metrics : List (String × List ℚ)
deriving DecidableEq

/-- The `for segment in forecast.segments: forecast.loc[:, (segment, self._fold_column)] = fold_number`
loop of `get_forecasts`, applied to one stored forecast object. -/
def tag_fold_number (f : Forecast) (fold_number : ℕ) : Forecast :=
  { f with
    df := f.segments.foldl
      (fun d seg => set_column d (seg, "fold_number") (fold_number : ℤ)) f.df }

/-- `get_forecasts`: iterates the stored `fold_number -> fold` mapping,
writes the `fold_number` column into each stored forecast — the Python code
mutates `fold_info["forecast"]` in place through the alias `forecast` — and
appends the (now tagged) dataframe of each fold to the output. The second
component is the post-call state of `self._folds`. -/
def get_forecasts : List (ℕ × FoldResult) → List ((String × String) × ℤ) × List (ℕ × FoldResult)
  | [] => ([], [])
  | (n, fr) :: rest =>
    let fr' := { fr with forecast := tag_fold_number fr.forecast n }
    let (out, rest') := get_forecasts rest
    (fr'.forecast.df ++ out, (n, fr') :: rest')

/-- One row of `get_fold_info`'s output: the four timerange boundaries and
the `fold_number` column. -/
structure FoldInfoRow where
  train_start_time : ℤ
  train_end_time : ℤ
  test_start_time : ℤ
  test_end_time : ℤ
  fold_number : ℕ
deriving DecidableEq

/-- `get_fold_info`: one output row per stored fold, reading (never writing)
the stored timeranges; the second component is the post-call state. -/
def get_fold_info : List (ℕ × FoldResult) → List FoldInfoRow × List (ℕ × FoldResult)
  | [] => ([], [])
  | (n, fr) :: rest =>
    let row : FoldInfoRow := ⟨fr.train_start, fr.train_end, fr.test_start, fr.test_end, n⟩
    let (out, rest') := get_fold_info rest
    (row :: out, (n, fr) :: rest')

/-- One row of the metrics dataframe built by `get_metrics`: the segment
name, the metric values (one per configured metric, in metric order), and
the `fold_number` column. -/
structure MetricsRow where
  segment : String
  values : List ℚ
  fold_number : ℕ
deriving DecidableEq

/-- The rows contributed by one fold:
`pd.DataFrame(fold["metrics"]).reset_index()` with the `fold_number` column
set to the fold's number. -/
def metrics_rows_of_fold (n : ℕ) (fr : FoldResult) : List MetricsRow :=
  fr.metrics.map (fun r => ⟨r.1, r.2, n⟩)

/-- The `metrics_df.append` loop of `get_metrics`: concatenates every fold's
rows in storage order, reading (never writing) the stored metrics; the
second component is the post-call state. -/
def collect_metrics : List (ℕ × FoldResult) → List MetricsRow × List (ℕ × FoldResult)
  | [] => ([], [])
  | (n, fr) :: rest =>
    let (out, rest') := collect_metrics rest
    (metrics_rows_of_fold n fr ++ out, (n, fr) :: rest')

/-- The sort key of `metrics_df.sort_values(["segment", self._fold_column])`:
lexicographic on `(segment, fold_number)`, ascending. -/
def metrics_row_le (r1 r2 : MetricsRow) : Prop :=
  r1.segment < r2.segment ∨ (r1.segment = r2.segment ∧ r1.fold_number ≤ r2.fold_number)

instance : DecidableRel metrics_row_le := fun r1 r2 => by
  unfold metrics_row_le
  infer_instance

instance : IsTotal MetricsRow metrics_row_le where
  total r1 r2 := by
    unfold metrics_row_le
    rcases lt_trichotomy r1.segment r2.segment with h | h | h
    · exact Or.inl (Or.inl h)
    · rcases Nat.le_total r1.fold_number r2.fold_number with h' | h'
      · exact Or.inl (Or.inr ⟨h, h'⟩)
      · exact Or.inr (Or.inr ⟨h.symm, h'⟩)
    · exact Or.inr (Or.inl h)

instance : IsTrans MetricsRow metrics_row_le where
  trans r1 r2 r3 h12 h23 := by
    unfold metrics_row_le at *
    rcases h12 with h12 | ⟨e12, l12⟩
    · rcases h23 with h23 | ⟨e23, l23⟩
      · exact Or.inl (h12.trans h23)
      · exact Or.inl (e23 ▸ h12)
    · rcases h23 with h23 | ⟨e23, l23⟩
      · exact Or.inl (e12 ▸ h23)
      · exact Or.inr ⟨e12.trans e23, l12.trans l23⟩

/-- Pointwise sum of the metric columns of a group of rows (the sum pandas
takes per metric column inside `groupby("segment").mean()`). -/
def cols_sum : List (List ℚ) → List ℚ
  | [] => []
  | [v] => v
  | v :: vs => List.zipWith (· + ·) v (cols_sum vs)

/-- Pointwise mean of the metric columns of a group of rows. -/
def cols_mean (vs : List (List ℚ)) : List ℚ :=
  (cols_sum vs).map (fun q => q / (vs.length : ℚ))

/-- `metrics_df.groupby("segment").mean().reset_index().drop("fold_number", axis=1)`:
group keys are the distinct segments (pandas sorts group keys ascending; on
the already-sorted rows, first occurrences are in ascending order), each
metric column is averaged within its group, and the `fold_number` column is
dropped, leaving one `(segment, metric means)` row per distinct segment. -/
def group_mean (rows : List MetricsRow) : List (String × List ℚ) :=
  ((rows.map (fun r => r.segment)).dedup).map
    (fun s =>
      (s, cols_mean ((rows.filter (fun r => r.segment == s)).map (fun r => r.values))))

/-- The metric values one stored fold holds for segment `s` (the row of
`fold["metrics"]` for that segment), used to state the aggregation
property. -/
def segment_values (ms : List (String × List ℚ)) (s : String) : List ℚ :=
  match ms.find? (fun r => r.1 == s) with
  | some r => r.2
  | none => []

/-- `get_metrics(aggregate_metrics)`: collect every fold's rows, sort by
`(segment, fold_number)` ascending, and, when `aggregate_metrics` is true,
group by segment and average (returned through `Sum.inr` since the
aggregated frame has different columns). The second component is the
post-call state of `self._folds`. -/
def get_metrics (st : List (ℕ × FoldResult)) (aggregate_metrics : Bool) :
    (List MetricsRow ⊕ List (String × List ℚ)) × List (ℕ × FoldResult) :=
  let (rows, st') := collect_metrics st
  let sorted_rows := List.insertionSort metrics_row_le rows
  if aggregate_metrics then (Sum.inr (group_mean sorted_rows), st')
  else (Sum.inl sorted_rows, st')

/-- `series.tail(horizon * n_folds).isna().any()` for one segment's target:
`tail(n)` keeps the last `min(n, len)` entries, and a missing value is
`Option.none`. -/
def tail_missing (horizon n_folds : ℕ) (target : List (Option ℚ)) : Bool :=
  (target.drop (target.length - horizon * n_folds)).any (fun v => v.isNone)

/-- `_validate_features`: raise a `ValueError` naming the first segment (in
iteration order) whose last `horizon * n_folds` target values contain a
missing value; the error payload is the offending segment's name. -/
def validate_features (horizon n_folds : ℕ) :
    List (String × List (Option ℚ)) → Except String Unit
  | [] => .ok ()
  | (seg, target) :: rest =>
    if tail_missing horizon n_folds target then .error seg
    else validate_features horizon n_folds rest

/-- The `Parallel(...)` dispatch of `backtest` over fold numbers: run
`_run_fold` (whose fit/forecast/metric work is the external collaborators'
and is abstracted as `run_fold`) for every fold, collecting all results;
any raised exception propagates before any result is returned. -/
def run_folds (run_fold : ℕ → Except String FoldResult) :
    List ℕ → Except String (List (ℕ × FoldResult))
  | [] => .ok []
  | i :: rest =>
    match run_fold i with
    | .error e => .error e
    | .ok fr =>
      match run_folds run_fold rest with
      | .error e => .error e
      | .ok frs => .ok ((i, fr) :: frs)

/-- One Python dict assignment `self._folds[i] = fold`: overwrite the entry
when the key is present, otherwise append it. -/
def dict_set (st : List (ℕ × FoldResult)) (n : ℕ) (fr : FoldResult) :
    List (ℕ × FoldResult) :=
  if st.any (fun p => p.1 == n) then st.map (fun p => if p.1 == n then (n, fr) else p)
  else st ++ [(n, fr)]

/-- The `for i, fold in folds: self._folds[i] = fold` loop of `backtest`. -/
def update_folds : List (ℕ × FoldResult) → List (ℕ × FoldResult) → List (ℕ × FoldResult)
  | st, [] => st
  | st, (n, fr) :: rest => update_folds (dict_set st n fr) rest

/-- `backtest`: validate features, dispatch all folds, store the collected
results, then build the three output tables (`get_metrics()` with the
default `aggregate_metrics=False`, then `get_forecasts()`, then
`get_fold_info()`, in the order the code calls them). The first component
is the returned triple or the raised exception; the second is the post-call
state of `self._folds` — on an exception the pre-call state is kept, since
the code mutates `self._folds` only after `Parallel` has returned. -/
def backtest (st : List (ℕ × FoldResult)) (horizon n_folds : ℕ)
    (segments : List (String × List (Option ℚ)))
    (run_fold : ℕ → Except String FoldResult) :
    Except String ((List MetricsRow ⊕ List (String × List ℚ)) ×
      List ((String × String) × ℤ) × List FoldInfoRow) × List (ℕ × FoldResult) :=
  match validate_features horizon n_folds segments with
  | .error e => (.error e, st)
  | .ok _ =>
    match run_folds run_fold (List.range n_folds) with
    | .error e => (.error e, st)
    | .ok folds =>
      let st1 := update_folds st folds
      let (metrics_df, st2) := get_metrics st1 false
      let (forecast_df, st3) := get_forecasts st2
      let (fold_info_df, st4) := get_fold_info st3
      (.ok (metrics_df, forecast_df, fold_info_df), st4)

/-! ### `TimeSeriesCrossValidation.__init__` (C10) -/

/-- `MetricAggregationMode` of the etna metrics package: the validation in
`__init__` accepts only `per_segment`; the source's other member (the
dataset-level aggregate mode) is rendered here as `macro_level`. -/
inductive MetricAggregationMode where
  | per_segment
  | macro_level
deriving DecidableEq

/-- Python `str.lower` on one code point, restricted to the ASCII case map
(all enum member names looked up are pure ASCII; strings are modelled as
code-point lists). -/
def py_char_lower (c : ℕ) : ℕ :=
  if 65 ≤ c ∧ c ≤ 90 then c + 32 else c

/-- Python `str.lower`: `mode.lower()`. -/
def py_lower (s : List ℕ) : List ℕ := s.map py_char_lower

/-- The code points of the enum member name `"expand"`. -/
def expand_name : List ℕ := [101, 120, 112, 97, 110, 100]

/-- The code points of the enum member name `"constant"`. -/
def constant_name : List ℕ := [99, 111, 110, 115, 116, 97, 110, 116]

/-- `CrossValidationMode[mode.lower()]`: enum lookup by member name, with
`none` modelling the `KeyError` raised on an unknown name. -/
def mode_lookup (mode : List ℕ) : Option CrossValidationMode :=
  if py_lower mode = expand_name then some .expand
  else if py_lower mode = constant_name then some .constant
  else none

/-- The construction-time errors `__init__` can raise, in source order. -/
inductive InitError where
  | invalid_fold_count
  | no_metrics
  | invalid_metric_mode
  | key_error
deriving DecidableEq

/-- The state a successfully constructed `TimeSeriesCrossValidation` holds
(the fields `__init__` assigns that later steps read). -/
structure CrossValidationConfig where
  horizon : ℤ
  n_folds : ℤ
  metrics : List MetricAggregationMode
  mode : CrossValidationMode
  constant_history_len : ℤ
deriving DecidableEq

/-- `TimeSeriesCrossValidation.__init__`: reject `n_folds < 1`, an empty
metric list, and any metric not in per-segment mode, then resolve the policy
via `CrossValidationMode[mode.lower()]` and set
`_constant_history_length` accordingly. -/
def ts_cross_validation_init (horizon n_folds : ℤ)
    (metrics : List MetricAggregationMode) (mode : List ℕ) :
    Except InitError CrossValidationConfig :=
  if n_folds < 1 then .error .invalid_fold_count
  else if metrics = [] then .error .no_metrics
  else if metrics.any (fun m => !(m == MetricAggregationMode.per_segment)) then
    .error .invalid_metric_mode
  else
    match mode_lookup mode with
    | none => .error .key_error
    | some md => .ok ⟨horizon, n_folds, metrics, md, constant_history_length md⟩

/-! ### Theorems -/

theorem generate_folds_length (N K H : ℕ) (m : CrossValidationMode) :
    (generate_folds N K H m).length = K := by
  unfold generate_folds
  rw [List.length_map, List.length_map, List.length_range]

theorem generate_folds_getElem? (N K H : ℕ) (m : CrossValidationMode) (i : ℕ) (hi : i < K) :
    (generate_folds N K H m)[i]? = some (fold_spec N K H m i) := by
  unfold generate_folds fold_spec
  rw [List.getElem?_map, List.getElem?_map, List.getElem?_range hi]
  rfl

theorem generate_folds_getElem?_eq_some (N K H : ℕ) (m : CrossValidationMode) (i : ℕ)
    (f : FoldIndices) (h : (generate_folds N K H m)[i]? = some f) :
    i < K ∧ f = fold_spec N K H m i := by
  have hlen : i < (generate_folds N K H m).length := by
    by_contra hc
    rw [List.getElem?_eq_none (by omega)] at h
    exact Option.noConfusion h
  rw [generate_folds_length] at hlen
  rw [generate_folds_getElem? N K H m i hlen] at h
  exact ⟨hlen, (Option.some.injEq _ _ ▸ h).symm⟩

/-- Closed form of the four indices of fold number `i`. -/
theorem fold_spec_eval (N K H : ℕ) (m : CrossValidationMode) (i : ℕ) :
    fold_spec N K H m i =
      { min_train_idx := (i : ℤ) * H * constant_history_length m
        max_train_idx := (N : ℤ) - H * ((K : ℤ) - i) - 1
        min_test_idx := (N : ℤ) - H * ((K : ℤ) - i)
        max_test_idx := (N : ℤ) - H * ((K : ℤ) - i) - 1 + H } := by
  simp only [fold_spec, fold_at_offset]
  congr 1 <;> ring

/-- Multiplying an inequality by the (nonnegative) horizon. -/
theorem horizon_mul_le (H : ℕ) {a b : ℤ} (h : a ≤ b) : (H : ℤ) * a ≤ (H : ℤ) * b :=
  mul_le_mul_of_nonneg_left h (by positivity)

/-- C5: for all `N, K, H` with `K ≥ 1`, `H ≥ 1`, `N ≥ K*H`, under either policy
the planner yields exactly `K` folds; each fold's test range has length exactly
`H`; test ranges of distinct folds are pairwise disjoint and strictly increasing
in time; and the last fold's test range ends exactly at axis index `N-1`. -/
theorem folds_test_ranges_exact (N K H : ℕ) (m : CrossValidationMode)
    (hK : 1 ≤ K) (hH : 1 ≤ H) (hN : K * H ≤ N) :
    (generate_folds N K H m).length = K ∧
    (∀ (i : ℕ) (f : FoldIndices), (generate_folds N K H m)[i]? = some f →
      f.max_test_idx - f.min_test_idx + 1 = (H : ℤ)) ∧
    (∀ (i j : ℕ) (f g : FoldIndices), i < j → (generate_folds N K H m)[i]? = some f →
      (generate_folds N K H m)[j]? = some g → f.max_test_idx < g.min_test_idx) ∧
    (∃ f, (generate_folds N K H m)[K-1]? = some f ∧ f.max_test_idx = (N : ℤ) - 1) := by
  refine ⟨generate_folds_length N K H m, ?_, ?_, ?_⟩
  · intro i f hf
    obtain ⟨hi, rfl⟩ := generate_folds_getElem?_eq_some N K H m i f hf
    rw [fold_spec_eval]
    ring
  · intro i j f g hij hf hg
    obtain ⟨hi, rfl⟩ := generate_folds_getElem?_eq_some N K H m i f hf
    obtain ⟨hj, rfl⟩ := generate_folds_getElem?_eq_some N K H m j g hg
    rw [fold_spec_eval, fold_spec_eval]
    have hmul : (H : ℤ) * ((K : ℤ) - j) ≤ (H : ℤ) * ((K : ℤ) - (i + 1)) :=
      horizon_mul_le H (by push_cast; omega)
    have hH' : (1 : ℤ) ≤ (H : ℤ) := by exact_mod_cast hH
    simp only
    nlinarith [hmul, hH']
  · refine ⟨fold_spec N K H m (K - 1), generate_folds_getElem? N K H m (K - 1) (by omega), ?_⟩
    rw [fold_spec_eval]
    have hcast : ((K - 1 : ℕ) : ℤ) = (K : ℤ) - 1 := by
      rw [Nat.cast_sub hK]; rfl
    simp only [hcast]
    ring

/-- C5 witness at `N = 10`, `K = 3`, `H = 2`, expanding policy. -/
theorem folds_test_ranges_exact_witness :
    (generate_folds 10 3 2 .expand).length = 3 ∧
    (∀ (i : ℕ) (f : FoldIndices), (generate_folds 10 3 2 .expand)[i]? = some f →
      f.max_test_idx - f.min_test_idx + 1 = (2 : ℤ)) ∧
    (∀ (i j : ℕ) (f g : FoldIndices), i < j → (generate_folds 10 3 2 .expand)[i]? = some f →
      (generate_folds 10 3 2 .expand)[j]? = some g → f.max_test_idx < g.min_test_idx) ∧
    (∃ f, (generate_folds 10 3 2 .expand)[3-1]? = some f ∧ f.max_test_idx = (10 : ℤ) - 1) :=
  folds_test_ranges_exact 10 3 2 .expand (by decide) (by decide) (by decide)

/-- C6: under the expanding policy every fold's train range starts at axis
index `0`; under the constant policy every fold's train range has the same
length `N - K*H` and fold `i+1`'s train start is fold `i`'s train start
plus `H` (for all `N, K, H` with `K ≥ 1`, `H ≥ 1`, `N ≥ K*H`). -/
theorem folds_train_policies (N K H : ℕ) (hK : 1 ≤ K) (hH : 1 ≤ H) (hN : K * H ≤ N) :
    (∀ (i : ℕ) (f : FoldIndices), (generate_folds N K H .expand)[i]? = some f → f.min_train_idx = 0) ∧
    (∀ (i : ℕ) (f : FoldIndices), (generate_folds N K H .constant)[i]? = some f →
      f.max_train_idx - f.min_train_idx + 1 = (N : ℤ) - (K : ℤ) * (H : ℤ)) ∧
    (∀ (i : ℕ) (f g : FoldIndices), (generate_folds N K H .constant)[i]? = some f →
      (generate_folds N K H .constant)[i+1]? = some g →
      g.min_train_idx = f.min_train_idx + (H : ℤ)) := by
  refine ⟨?_, ?_, ?_⟩
  · intro i f hf
    obtain ⟨hi, rfl⟩ := generate_folds_getElem?_eq_some N K H .expand i f hf
    rw [fold_spec_eval]
    simp [constant_history_length]
  · intro i f hf
    obtain ⟨hi, rfl⟩ := generate_folds_getElem?_eq_some N K H .constant i f hf
    rw [fold_spec_eval]
    simp only [constant_history_length]
    ring
  · intro i f g hf hg
    obtain ⟨hi, rfl⟩ := generate_folds_getElem?_eq_some N K H .constant i f hf
    obtain ⟨hi', rfl⟩ := generate_folds_getElem?_eq_some N K H .constant (i + 1) g hg
    rw [fold_spec_eval, fold_spec_eval]
    simp only [constant_history_length]
    push_cast
    ring

/-- C6 witness at `N = 10`, `K = 3`, `H = 2`. -/
theorem folds_train_policies_witness :
    (∀ (i : ℕ) (f : FoldIndices), (generate_folds 10 3 2 .expand)[i]? = some f → f.min_train_idx = 0) ∧
    (∀ (i : ℕ) (f : FoldIndices), (generate_folds 10 3 2 .constant)[i]? = some f →
      f.max_train_idx - f.min_train_idx + 1 = (10 : ℤ) - (3 : ℤ) * (2 : ℤ)) ∧
    (∀ (i : ℕ) (f g : FoldIndices), (generate_folds 10 3 2 .constant)[i]? = some f →
      (generate_folds 10 3 2 .constant)[i+1]? = some g →
      g.min_train_idx = f.min_train_idx + (2 : ℤ)) :=
  folds_train_policies 10 3 2 (by decide) (by decide) (by decide)

/-- C1 counterexample: the claim "no fold's train range overlaps any fold's
test range" is false as stated: at `N = 10`, `K = 3`, `H = 2` under the
expanding policy, fold `1`'s train range `[0, 5]` contains index `5`, which
lies in fold `0`'s test range `[4, 5]`. -/
theorem no_cross_fold_leakage_counterexample :
    ¬ (∀ (N K H : ℕ) (m : CrossValidationMode), 1 ≤ K → 1 ≤ H → K * H ≤ N →
        ∀ f g, f ∈ generate_folds N K H m → g ∈ generate_folds N K H m →
        ∀ x : ℤ, mem_train x f → ¬ mem_test x g) := by
  intro hclaim
  exact hclaim 10 3 2 .expand (by decide) (by decide) (by decide)
    ⟨0, 5, 6, 7⟩ ⟨0, 3, 4, 5⟩ (by decide) (by decide) 5 (by decide) (by decide)

/-- C1 amended: under both policies, a fold's train range never overlaps its
own test range nor the test range of any later fold (it may overlap the test
ranges of earlier folds, which lie in its past). -/
theorem no_current_or_future_leakage (N K H : ℕ) (m : CrossValidationMode)
    (hK : 1 ≤ K) (hH : 1 ≤ H) (hN : K * H ≤ N) (i j : ℕ) (f g : FoldIndices)
    (hij : i ≤ j)
    (hf : (generate_folds N K H m)[i]? = some f)
    (hg : (generate_folds N K H m)[j]? = some g)
    (x : ℤ) (hx : mem_train x f) : ¬ mem_test x g := by
  obtain ⟨hi, rfl⟩ := generate_folds_getElem?_eq_some N K H m i f hf
  obtain ⟨hj, rfl⟩ := generate_folds_getElem?_eq_some N K H m j g hg
  rw [fold_spec_eval] at hx ⊢
  intro hx'
  obtain ⟨-, hx2⟩ := hx
  obtain ⟨hx3, -⟩ := hx'
  simp only at hx2 hx3
  have hmul : (H : ℤ) * ((K : ℤ) - j) ≤ (H : ℤ) * ((K : ℤ) - i) :=
    horizon_mul_le H (by push_cast; omega)
  linarith

/-- C1 amended witness: fold `0`'s train index `3` is not in fold `1`'s test
range (`N = 10`, `K = 3`, `H = 2`, expanding policy). -/
theorem no_current_or_future_leakage_witness :
    ¬ mem_test 3 (fold_spec 10 3 2 .expand 1) :=
  no_current_or_future_leakage 10 3 2 .expand (by decide) (by decide) (by decide)
    0 1 ⟨0, 3, 4, 5⟩ (fold_spec 10 3 2 .expand 1) (by decide) (by decide)
    (generate_folds_getElem? 10 3 2 .expand 1 (by decide)) 3 (by decide)

/-- C2 counterexample: with `N = H*K` exactly (here `N = 2`, `K = 1`, `H = 2`)
the single fold has `min_train_idx = 0 > -1 = max_train_idx`, so the claim
that `N ≥ H*K` suffices for `min_train_idx ≤ max_train_idx` is false. -/
theorem folds_indices_valid_counterexample :
    ¬ (∀ (N K H : ℕ) (m : CrossValidationMode), 1 ≤ K → 1 ≤ H → H * K ≤ N →
        ∀ (i : ℕ) (f : FoldIndices), (generate_folds N K H m)[i]? = some f →
          f.min_train_idx ≤ f.max_train_idx ∧ 0 ≤ f.min_train_idx ∧
          f.max_test_idx ≤ (N : ℤ) - 1) := by
  intro hclaim
  have h := hclaim 2 1 2 .expand (by decide) (by decide) (by decide)
    0 ⟨0, -1, 0, 1⟩ (by decide)
  exact absurd h.1 (by decide)

/-- C2 amended: with the strengthened precondition `N ≥ H*K + 1`, every fold
satisfies `min_train_idx ≤ max_train_idx` and all four computed indices are
valid positions in `0..N-1`. -/
theorem folds_indices_valid (N K H : ℕ) (m : CrossValidationMode)
    (hK : 1 ≤ K) (hH : 1 ≤ H) (hN : H * K + 1 ≤ N) (i : ℕ) (f : FoldIndices)
    (hf : (generate_folds N K H m)[i]? = some f) :
    0 ≤ f.min_train_idx ∧ f.min_train_idx ≤ f.max_train_idx ∧
    f.min_test_idx = f.max_train_idx + 1 ∧ f.max_test_idx ≤ (N : ℤ) - 1 := by
  obtain ⟨hi, rfl⟩ := generate_folds_getElem?_eq_some N K H m i f hf
  rw [fold_spec_eval]
  have hN' : (H : ℤ) * (K : ℤ) + 1 ≤ (N : ℤ) := by exact_mod_cast hN
  have hKi : (H : ℤ) * ((K : ℤ) - i) ≤ (H : ℤ) * (K : ℤ) - (H : ℤ) * (i : ℤ) := by ring_nf; omega
  have hmul1 : (H : ℤ) * 1 ≤ (H : ℤ) * ((K : ℤ) - i) :=
    horizon_mul_le H (by push_cast; omega)
  refine ⟨?_, ?_, by simp only; ring, ?_⟩
  · cases m <;> simp only [constant_history_length] <;> positivity
  · cases m <;> simp only [constant_history_length]
    · nlinarith
    · nlinarith
  · simp only
    nlinarith

/-- C2 amended witness at `N = 7`, `K = 3`, `H = 2`, expanding policy, fold 0. -/
theorem folds_indices_valid_witness :
    0 ≤ (FoldIndices.min_train_idx ⟨0, 0, 1, 2⟩) ∧
    (FoldIndices.min_train_idx ⟨0, 0, 1, 2⟩) ≤ (FoldIndices.max_train_idx ⟨0, 0, 1, 2⟩) ∧
    (FoldIndices.min_test_idx ⟨0, 0, 1, 2⟩) = (FoldIndices.max_train_idx ⟨0, 0, 1, 2⟩) + 1 ∧
    (FoldIndices.max_test_idx ⟨0, 0, 1, 2⟩) ≤ (7 : ℤ) - 1 :=
  folds_indices_valid 7 3 2 .expand (by decide) (by decide) (by decide)
    0 ⟨0, 0, 1, 2⟩ (by decide)

/-- Every adjacent pair produced by `l.zip l.tail` is related by `R`
whenever `l` is an `R`-chain. -/
theorem chain'_zip_tail {α : Type} {R : α → α → Prop} :
    ∀ {l : List α}, List.Chain' R l → ∀ p ∈ l.zip l.tail, R p.1 p.2
  | [], _, p, hp => absurd hp (by simp)
  | [_], _, p, hp => absurd hp (by simp)
  | a :: b :: t, h, p, hp => by
    rw [List.chain'_cons] at h
    rcases List.mem_cons.mp hp with rfl | hp'
    · exact h.1
    · exact chain'_zip_tail h.2 p hp'

/-- Appending the right sentinel to a strictly sorted boundary list keeps
adjacent pairs strictly increasing (in the `endpoint_lt` sense). -/
theorem chain'_map_some_append_none :
    ∀ {s : List ℤ}, List.Chain' (· < ·) s →
      List.Chain' endpoint_lt (s.map some ++ [(none : Option ℤ)])
  | [], _ => List.chain'_singleton _
  | [a], _ => by
    refine List.Chain'.cons ?_ (List.chain'_singleton _)
    intro x y _ hy
    exact Option.noConfusion hy
  | a :: b :: t, h => by
    rw [List.chain'_cons] at h
    refine List.Chain'.cons ?_ (chain'_map_some_append_none h.2)
    intro x y hx hy
    obtain rfl := Option.some.inj hx
    obtain rfl := Option.some.inj hy
    exact h.1

/-- C3 counterexample: `_build_intervals` does not deduplicate boundaries.
On the duplicated input `[2, 2]` it returns
`[(None, 2), (2, 2), (2, None)]`, which contains the zero-length interval
`(2, 2)`. -/
theorem build_intervals_dedup_counterexample :
    ¬ (∀ (change_points : List ℤ), ∀ p ∈ build_intervals change_points,
        ∀ x : ℤ, p ≠ (some x, some x)) := by
  intro hclaim
  exact hclaim [2, 2] (some 2, some 2) (by decide) 2 rfl

/-- C3 amended: `_build_intervals` sorts the boundaries but does not
deduplicate them; when the input list of boundary points is duplicate-free,
the returned ordered interval list contains no zero-length interval, but a
duplicated boundary point does produce one. -/
theorem build_intervals_nodup_no_zero_length (change_points : List ℤ)
    (hnd : change_points.Nodup) :
    ∀ p ∈ build_intervals change_points, ∀ x : ℤ, p ≠ (some x, some x) := by
  intro p hp x hx
  have hsorted : List.Sorted (· ≤ ·) (List.insertionSort (· ≤ ·) change_points) :=
    List.sorted_insertionSort _ _
  have hnd' : (List.insertionSort (· ≤ ·) change_points).Nodup :=
    ((List.perm_insertionSort _ change_points).nodup_iff).mpr hnd
  have hlt : List.Sorted (· < ·) (List.insertionSort (· ≤ ·) change_points) :=
    hsorted.lt_of_le hnd'
  have hchain : List.Chain' endpoint_lt
      ([none] ++ (List.insertionSort (· ≤ ·) change_points).map some ++ [(none : Option ℤ)]) := by
    rw [List.singleton_append]
    refine List.chain'_cons'.mpr ⟨?_, chain'_map_some_append_none hlt.chain'⟩
    intro b _ x y hx _
    exact Option.noConfusion hx
  have := chain'_zip_tail hchain p hp
  rw [hx] at this
  exact lt_irrefl x (this x x rfl rfl)

/-- C3 amended witness on the spec's example boundaries `{5, 2, 8}`: the
first bounded interval `(2, 5)` is not zero-length. -/
theorem build_intervals_nodup_no_zero_length_witness :
    ((some 2, some 5) : Option ℤ × Option ℤ) ≠ (some 2, some 2) :=
  build_intervals_nodup_no_zero_length [5, 2, 8] (by decide)
    (some 2, some 5) (by decide) 2

theorem collect_metrics_snd (st : List (ℕ × FoldResult)) : (collect_metrics st).2 = st := by
  induction st with
  | nil => rfl
  | cons p rest ih =>
    obtain ⟨n, fr⟩ := p
    unfold collect_metrics
    cases hcm : collect_metrics rest with
    | mk out rest' =>
      simp only
      rw [← ih, hcm]

theorem get_metrics_snd (st : List (ℕ × FoldResult)) (b : Bool) : (get_metrics st b).2 = st := by
  unfold get_metrics
  cases hcm : collect_metrics st with
  | mk rows st' =>
    have h := collect_metrics_snd st
    rw [hcm] at h
    cases b <;> exact h

theorem get_fold_info_snd (st : List (ℕ × FoldResult)) : (get_fold_info st).2 = st := by
  induction st with
  | nil => rfl
  | cons p rest ih =>
    obtain ⟨n, fr⟩ := p
    unfold get_fold_info
    cases hgi : get_fold_info rest with
    | mk out rest' =>
      simp only
      rw [← ih, hgi]

theorem get_forecasts_snd (st : List (ℕ × FoldResult)) :
    (get_forecasts st).2 =
      st.map (fun p => (p.1, { p.2 with forecast := tag_fold_number p.2.forecast p.1 })) := by
  induction st with
  | nil => rfl
  | cons p rest ih =>
    obtain ⟨n, fr⟩ := p
    unfold get_forecasts
    cases hgf : get_forecasts rest with
    | mk out rest' =>
      simp only [List.map_cons]
      rw [← ih, hgf]

/-- C4 counterexample: `get_forecasts` is not read-only. On a state holding
one fold whose stored forecast has no `fold_number` column yet, calling
`get_forecasts` writes that column into the stored forecast object, so the
stored `FoldResult` changes. -/
theorem queries_read_only_counterexample :
    ¬ (∀ (st : List (ℕ × FoldResult)) (b : Bool),
        (get_metrics st b).2 = st ∧ (get_fold_info st).2 = st ∧
        (get_forecasts st).2 = st) := by
  intro h
  have h3 := (h [(0, ⟨0, 3, 4, 5, ⟨["s"], [(("s", "target"), 7)]⟩, [("s", [1])]⟩)] false).2.2
  exact absurd h3 (by decide)

/-- C4 amended: `get_metrics` and `get_fold_info` are read-only projections
of the stored `fold_number -> FoldResult` mapping, but `get_forecasts`
mutates each stored fold's forecast in place by writing the per-segment
`fold_number` column into it. -/
theorem metrics_fold_info_read_only (st : List (ℕ × FoldResult)) (b : Bool) :
    (get_metrics st b).2 = st ∧ (get_fold_info st).2 = st ∧
    (get_forecasts st).2 =
      st.map (fun p => (p.1, { p.2 with forecast := tag_fold_number p.2.forecast p.1 })) :=
  ⟨get_metrics_snd st b, get_fold_info_snd st, get_forecasts_snd st⟩

/-- `_validate_features` raises on some segment exactly when a segment's
tail has a missing value, and the raised error names an offending segment. -/
theorem validate_features_error_of_missing (horizon n_folds : ℕ) :
    ∀ (segments : List (String × List (Option ℚ))),
      (∃ p ∈ segments, tail_missing horizon n_folds p.2 = true) →
      ∃ s, validate_features horizon n_folds segments = .error s ∧
        ∃ l, (s, l) ∈ segments ∧ tail_missing horizon n_folds l = true := by
  intro segments h
  induction segments with
  | nil => obtain ⟨p, hp, -⟩ := h; exact absurd hp (by simp)
  | cons q rest ih =>
    obtain ⟨seg, target⟩ := q
    by_cases hq : tail_missing horizon n_folds target = true
    · refine ⟨seg, ?_, target, List.mem_cons_self _ _, hq⟩
      unfold validate_features
      rw [if_pos hq]
    · obtain ⟨p, hp, hmiss⟩ := h
      rcases List.mem_cons.mp hp with rfl | hp'
      · exact absurd hmiss hq
      · obtain ⟨s, hval, l, hl, hml⟩ := ih ⟨p, hp', hmiss⟩
        refine ⟨s, ?_, l, List.mem_cons_of_mem _ hl, hml⟩
        unfold validate_features
        rw [if_neg hq]
        exact hval

/-- `_validate_features` passes when every segment's tail is fully observed. -/
theorem validate_features_ok_of_clean (horizon n_folds : ℕ) :
    ∀ (segments : List (String × List (Option ℚ))),
      (∀ p ∈ segments, tail_missing horizon n_folds p.2 = false) →
      validate_features horizon n_folds segments = .ok () := by
  intro segments h
  induction segments with
  | nil => rfl
  | cons q rest ih =>
    obtain ⟨seg, target⟩ := q
    unfold validate_features
    rw [if_neg (by rw [h (seg, target) (List.mem_cons_self _ _)]; exact Bool.false_ne_true)]
    exact ih (fun p hp => h p (List.mem_cons_of_mem _ hp))

/-- C8: if some segment's last `horizon * n_folds` target points contain a
missing value, `backtest` raises an error naming an offending segment before
any fold executes — the result and post-call state are the same for every
fold runner, and the stored mapping is untouched; if every segment's tail is
fully observed, the validation passes. -/
theorem backtest_validates_before_folds (horizon n_folds : ℕ)
    (segments : List (String × List (Option ℚ))) :
    ((∃ p ∈ segments, tail_missing horizon n_folds p.2 = true) →
      ∃ s, (∃ l, (s, l) ∈ segments ∧ tail_missing horizon n_folds l = true) ∧
        ∀ (st : List (ℕ × FoldResult)) (run_fold : ℕ → Except String FoldResult),
          backtest st horizon n_folds segments run_fold = (.error s, st)) ∧
    ((∀ p ∈ segments, tail_missing horizon n_folds p.2 = false) →
      validate_features horizon n_folds segments = .ok ()) := by
  constructor
  · intro h
    obtain ⟨s, hval, l, hl, hml⟩ := validate_features_error_of_missing horizon n_folds segments h
    refine ⟨s, ⟨l, hl, hml⟩, ?_⟩
    intro st run_fold
    unfold backtest
    rw [hval]
  · exact validate_features_ok_of_clean horizon n_folds segments

/-- C8 witness: a segment `"bad"` with a missing last point makes `backtest`
fail naming a deficient segment with the state untouched, for any runner; a
fully observed dataset passes validation. -/
theorem backtest_validates_before_folds_witness :
    (∃ s, (∃ l, (s, l) ∈ [("good", [some (1 : ℚ)]), ("bad", [none])] ∧
        tail_missing 1 1 l = true) ∧
      ∀ (st : List (ℕ × FoldResult)) (run_fold : ℕ → Except String FoldResult),
        backtest st 1 1 [("good", [some (1 : ℚ)]), ("bad", [none])] run_fold
          = (.error s, st)) ∧
    validate_features 1 1 [("good", [some (1 : ℚ)])] = .ok () :=
  ⟨(backtest_validates_before_folds 1 1 _).1 ⟨("bad", [none]), by decide, by decide⟩,
   (backtest_validates_before_folds 1 1 _).2 (by decide)⟩

/-- The `Parallel` dispatch re-raises when any fold's runner raises. -/
theorem run_folds_error (run_fold : ℕ → Except String FoldResult) :
    ∀ (L : List ℕ), (∃ i ∈ L, ∃ e, run_fold i = .error e) →
      ∃ e, run_folds run_fold L = .error e := by
  intro L h
  induction L with
  | nil => obtain ⟨i, hi, -⟩ := h; exact absurd hi (by simp)
  | cons i rest ih =>
    cases hrf : run_fold i with
    | error e => exact ⟨e, by unfold run_folds; rw [hrf]⟩
    | ok fr =>
      obtain ⟨i', hi', e', he'⟩ := h
      rcases List.mem_cons.mp hi' with rfl | hmem
      · rw [hrf] at he'; exact Except.noConfusion he'
      · obtain ⟨e, he⟩ := ih ⟨i', hmem, e', he'⟩
        refine ⟨e, ?_⟩
        unfold run_folds
        rw [hrf, he]

/-- C9: if any fold's fit/forecast/metric computation raises, `backtest`
raises and the stored `fold_number -> FoldResult` mapping is unchanged from
its pre-call state. -/
theorem backtest_aborts_on_fold_error (st : List (ℕ × FoldResult))
    (horizon n_folds : ℕ) (segments : List (String × List (Option ℚ)))
    (run_fold : ℕ → Except String FoldResult)
    (h : ∃ i, i < n_folds ∧ ∃ e, run_fold i = .error e) :
    (∃ e, (backtest st horizon n_folds segments run_fold).1 = .error e) ∧
    (backtest st horizon n_folds segments run_fold).2 = st := by
  unfold backtest
  cases hv : validate_features horizon n_folds segments with
  | error e => exact ⟨⟨e, rfl⟩, rfl⟩
  | ok u =>
    obtain ⟨i, hi, e, he⟩ := h
    obtain ⟨e', he'⟩ :=
      run_folds_error run_fold (List.range n_folds) ⟨i, List.mem_range.mpr hi, e, he⟩
    rw [he']
    exact ⟨⟨e', rfl⟩, rfl⟩

/-- C9 witness: a runner that raises on fold 0 makes `backtest` raise and
leaves the (empty) stored mapping unchanged. -/
theorem backtest_aborts_on_fold_error_witness :
    (∃ e, (backtest [] 1 1 [("s", [some (1 : ℚ)])] (fun _ => .error "boom")).1
      = .error e) ∧
    (backtest [] 1 1 [("s", [some (1 : ℚ)])] (fun _ => .error "boom")).2 = [] :=
  backtest_aborts_on_fold_error [] 1 1 [("s", [some (1 : ℚ)])]
    (fun _ => .error "boom") ⟨0, by decide, "boom", rfl⟩

theorem py_char_lower_idem (c : ℕ) :
    py_char_lower (py_char_lower c) = py_char_lower c := by
  unfold py_char_lower
  split_ifs <;> omega

theorem py_lower_idem (s : List ℕ) : py_lower (py_lower s) = py_lower s := by
  unfold py_lower
  rw [List.map_map]
  exact List.map_congr_left (fun c _ => py_char_lower_idem c)

theorem mode_lookup_py_lower (mode : List ℕ) :
    mode_lookup (py_lower mode) = mode_lookup mode := by
  unfold mode_lookup
  rw [py_lower_idem]

/-- C10: construction is case-insensitive in the policy name — `__init__`
behaves identically on `mode` and `mode.lower()` — and a mode string whose
lower-casing is neither "expand" nor "constant" fails at the
`CrossValidationMode[mode.lower()]` lookup (`KeyError`) once the earlier
validations pass. -/
theorem init_mode_case_insensitive (horizon n_folds : ℤ)
    (metrics : List MetricAggregationMode) (mode : List ℕ) :
    ts_cross_validation_init horizon n_folds metrics mode
      = ts_cross_validation_init horizon n_folds metrics (py_lower mode) ∧
    (mode_lookup mode = none ↔
      py_lower mode ≠ expand_name ∧ py_lower mode ≠ constant_name) ∧
    (1 ≤ n_folds → metrics ≠ [] → (∀ m ∈ metrics, m = .per_segment) →
      mode_lookup mode = none →
      ts_cross_validation_init horizon n_folds metrics mode = .error .key_error) := by
  refine ⟨?_, ?_, ?_⟩
  · unfold ts_cross_validation_init
    rw [mode_lookup_py_lower]
  · unfold mode_lookup
    split_ifs with h1 h2
    · simp [h1]
    · simp [h1, h2]
    · simp [h1, h2]
  · intro h1 h2 h3 h4
    unfold ts_cross_validation_init
    rw [if_neg (by omega), if_neg h2, if_neg ?hany, h4]
    case hany =>
      rw [Bool.not_eq_true, List.any_eq_false]
      intro m hm
      rw [h3 m hm]
      decide

/-- C10 witness: the non-casing mode string `"bogus"` fails construction at
the policy lookup. -/
theorem init_mode_case_insensitive_witness :
    ts_cross_validation_init 1 5 [.per_segment] [98, 111, 103, 117, 115]
      = .error .key_error :=
  (init_mode_case_insensitive 1 5 [.per_segment] [98, 111, 103, 117, 115]).2.2
    (by decide) (by decide) (by decide) (by decide)

theorem get_metrics_eq (st : List (ℕ × FoldResult)) (b : Bool) :
    get_metrics st b =
      (if b then
        Sum.inr (group_mean (List.insertionSort metrics_row_le (collect_metrics st).1))
       else Sum.inl (List.insertionSort metrics_row_le (collect_metrics st).1), st) := by
  unfold get_metrics
  cases hcm : collect_metrics st with
  | mk rows st' =>
    have h := collect_metrics_snd st
    rw [hcm] at h
    simp only at h
    subst h
    cases b <;> rfl

theorem collect_metrics_length (st : List (ℕ × FoldResult)) (segs : List String)
    (hsegs : ∀ p ∈ st, p.2.metrics.map Prod.fst = segs) :
    (collect_metrics st).1.length = st.length * segs.length := by
  induction st with
  | nil => simp [collect_metrics]
  | cons p rest ih =>
    obtain ⟨n, fr⟩ := p
    unfold collect_metrics
    cases hcm : collect_metrics rest with
    | mk out rest' =>
      have h1 : (metrics_rows_of_fold n fr).length = segs.length := by
        unfold metrics_rows_of_fold
        rw [List.length_map, ← hsegs (n, fr) (List.mem_cons_self _ _), List.length_map]
      have h2 : out.length = rest.length * segs.length := by
        have h := ih (fun q hq => hsegs q (List.mem_cons_of_mem _ hq))
        rw [hcm] at h
        exact h
      simp only [List.length_append, List.length_cons, h1, h2]
      ring

theorem mem_collect_metrics (st : List (ℕ × FoldResult)) (r : MetricsRow)
    (h : r ∈ (collect_metrics st).1) : ∃ p ∈ st, r ∈ metrics_rows_of_fold p.1 p.2 := by
  induction st with
  | nil => exact absurd h (by simp [collect_metrics])
  | cons p rest ih =>
    obtain ⟨n, fr⟩ := p
    unfold collect_metrics at h
    cases hcm : collect_metrics rest with
    | mk out rest' =>
      rw [hcm] at h
      simp only at h
      rcases List.mem_append.mp h with h' | h'
      · exact ⟨(n, fr), List.mem_cons_self _ _, h'⟩
      · obtain ⟨q, hq, hr⟩ := ih (by rw [hcm]; exact h')
        exact ⟨q, List.mem_cons_of_mem _ hq, hr⟩

theorem filter_tagged_rows_nil (n : ℕ) (s : String) :
    ∀ (ms : List (String × List ℚ)), s ∉ ms.map Prod.fst →
      (ms.map (fun r => (⟨r.1, r.2, n⟩ : MetricsRow))).filter
        (fun r => r.segment == s) = [] := by
  intro ms hs
  induction ms with
  | nil => rfl
  | cons a tl ih =>
    simp only [List.map_cons, List.filter_cons]
    rw [if_neg ?hneg]
    · exact ih (fun h => hs (List.mem_cons_of_mem _ h))
    case hneg =>
      simp only [beq_iff_eq]
      intro h
      exact hs (h ▸ List.mem_cons_self _ _)

theorem segment_values_cons_hit (a : String × List ℚ) (tl : List (String × List ℚ))
    (s : String) (ha : a.1 = s) : segment_values (a :: tl) s = a.2 := by
  unfold segment_values
  rw [List.find?_cons, show (a.1 == s) = true from beq_iff_eq.mpr ha]

theorem segment_values_cons_miss (a : String × List ℚ) (tl : List (String × List ℚ))
    (s : String) (ha : a.1 ≠ s) : segment_values (a :: tl) s = segment_values tl s := by
  unfold segment_values
  rw [List.find?_cons, show (a.1 == s) = false from beq_eq_false_iff_ne.mpr ha]

theorem filter_tagged_rows_single (n : ℕ) (s : String) :
    ∀ (ms : List (String × List ℚ)), (ms.map Prod.fst).Nodup → s ∈ ms.map Prod.fst →
      (ms.map (fun r => (⟨r.1, r.2, n⟩ : MetricsRow))).filter (fun r => r.segment == s)
        = [⟨s, segment_values ms s, n⟩] := by
  intro ms
  induction ms with
  | nil => intro _ hs; exact absurd hs (by simp)
  | cons a tl ih =>
    intro hnd hs
    rw [List.map_cons] at hnd hs
    by_cases ha : a.1 = s
    · simp only [List.map_cons, List.filter_cons]
      rw [if_pos (by simp [ha])]
      rw [filter_tagged_rows_nil n s tl ?hnotin]
      · rw [segment_values_cons_hit a tl s ha, ha]
      case hnotin =>
        have h := (List.nodup_cons.mp hnd).1
        rw [ha] at h
        exact h
    · simp only [List.map_cons, List.filter_cons]
      rw [if_neg (by simp [ha])]
      rw [segment_values_cons_miss a tl s ha]
      refine ih (List.nodup_cons.mp hnd).2 ?_
      rcases List.mem_cons.mp hs with h | h
      · exact absurd h.symm ha
      · exact h

theorem collect_metrics_filter (st : List (ℕ × FoldResult)) (segs : List String)
    (s : String) (hsegs : ∀ p ∈ st, p.2.metrics.map Prod.fst = segs)
    (hnd : segs.Nodup) (hs : s ∈ segs) :
    (collect_metrics st).1.filter (fun r => r.segment == s)
      = st.map (fun p => (⟨s, segment_values p.2.metrics s, p.1⟩ : MetricsRow)) := by
  induction st with
  | nil => rfl
  | cons p rest ih =>
    obtain ⟨n, fr⟩ := p
    unfold collect_metrics
    cases hcm : collect_metrics rest with
    | mk out rest' =>
      simp only [List.filter_append, List.map_cons]
      have hms : fr.metrics.map Prod.fst = segs := hsegs (n, fr) (List.mem_cons_self _ _)
      have hhd := filter_tagged_rows_single n s fr.metrics
        (by rw [hms]; exact hnd) (by rw [hms]; exact hs)
      have htl : out.filter (fun r => r.segment == s)
          = rest.map (fun p => (⟨s, segment_values p.2.metrics s, p.1⟩ : MetricsRow)) := by
        have h := ih (fun q hq => hsegs q (List.mem_cons_of_mem _ hq))
        rw [hcm] at h
        exact h
      rw [show (metrics_rows_of_fold n fr) = fr.metrics.map
            (fun r => (⟨r.1, r.2, n⟩ : MetricsRow)) from rfl, hhd, htl]
      rfl

theorem segment_values_length (ms : List (String × List ℚ)) (s : String) (M : ℕ)
    (hs : s ∈ ms.map Prod.fst) (hM : ∀ r ∈ ms, r.2.length = M) :
    (segment_values ms s).length = M := by
  unfold segment_values
  cases hf : ms.find? (fun r => r.1 == s) with
  | none =>
    rw [List.find?_eq_none] at hf
    obtain ⟨r, hr, hrs⟩ := List.mem_map.mp hs
    exact absurd (by simp [hrs]) (hf r hr)
  | some r => exact hM r (List.mem_of_find?_eq_some hf)

theorem zipWith_add_getD :
    ∀ (a b : List ℚ) (k : ℕ), k < a.length → k < b.length →
      (List.zipWith (· + ·) a b).getD k 0 = a.getD k 0 + b.getD k 0
  | [], _, k, ha, _ => absurd ha (by simp)
  | _ :: _, [], k, _, hb => absurd hb (by simp)
  | x :: a', y :: b', 0, _, _ => rfl
  | x :: a', y :: b', (k+1), ha, hb =>
    zipWith_add_getD a' b' k (by simpa using ha) (by simpa using hb)

theorem cols_sum_length (M : ℕ) :
    ∀ (vs : List (List ℚ)), vs ≠ [] → (∀ v ∈ vs, v.length = M) →
      (cols_sum vs).length = M
  | [], h, _ => absurd rfl h
  | [v], _, h => h v (List.mem_singleton_self v)
  | v :: v' :: vs', _, h => by
    show (List.zipWith (· + ·) v (cols_sum (v' :: vs'))).length = M
    rw [List.length_zipWith, h v (List.mem_cons_self _ _),
      cols_sum_length M (v' :: vs') (by simp)
        (fun u hu => h u (List.mem_cons_of_mem _ hu)),
      Nat.min_self]

theorem cols_sum_getD (M k : ℕ) (hk : k < M) :
    ∀ (vs : List (List ℚ)), vs ≠ [] → (∀ v ∈ vs, v.length = M) →
      (cols_sum vs).getD k 0 = (vs.map (fun v => v.getD k 0)).sum
  | [], h, _ => absurd rfl h
  | [v], _, _ => by simp [cols_sum]
  | v :: v' :: vs', _, h => by
    have htail := cols_sum_getD M k hk (v' :: vs') (by simp)
      (fun u hu => h u (List.mem_cons_of_mem _ hu))
    have hlen : (cols_sum (v' :: vs')).length = M :=
      cols_sum_length M (v' :: vs') (by simp)
        (fun u hu => h u (List.mem_cons_of_mem _ hu))
    show (List.zipWith (· + ·) v (cols_sum (v' :: vs'))).getD k 0 = _
    rw [zipWith_add_getD v (cols_sum (v' :: vs')) k
        (by rw [h v (List.mem_cons_self _ _)]; exact hk) (by rw [hlen]; exact hk),
      htail]
    simp

theorem nodup_perm_of_mem_iff {l₁ l₂ : List String} (h₁ : l₁.Nodup) (h₂ : l₂.Nodup)
    (h : ∀ x, x ∈ l₁ ↔ x ∈ l₂) : l₁.Perm l₂ :=
  (List.subperm_of_subset h₁ (fun x hx => (h x).mp hx)).antisymm
    (List.subperm_of_subset h₂ (fun x hx => (h x).mpr hx))

/-- C7: for a non-empty stored mapping whose folds all report the same
duplicate-free segment list `segs`, with `M` metric values per row,
`get_metrics(aggregate_metrics=False)` returns — leaving the stored state
unchanged — the rows of all (segment, fold) pairs (`st.length * segs.length`
of them, a permutation of the concatenated per-fold rows), sorted by
`(segment, fold_number)` ascending; `get_metrics(aggregate_metrics=True)`
returns exactly one row per distinct segment, dropping the fold_number
column, whose `k`-th metric value is the arithmetic mean over all stored
folds of that segment's `k`-th metric value. -/
theorem get_metrics_rows_and_aggregate (st : List (ℕ × FoldResult))
    (segs : List String) (M : ℕ) (hne : st ≠ [])
    (hsegs : ∀ p ∈ st, p.2.metrics.map Prod.fst = segs)
    (hnd : segs.Nodup)
    (hM : ∀ p ∈ st, ∀ r ∈ p.2.metrics, r.2.length = M) :
    (∃ R, get_metrics st false = (Sum.inl R, st) ∧
      List.Sorted metrics_row_le R ∧ R.Perm (collect_metrics st).1 ∧
      R.length = st.length * segs.length) ∧
    (∃ A, get_metrics st true = (Sum.inr A, st) ∧
      A.length = segs.length ∧
      ∀ s ∈ segs, ∃ vals, (s, vals) ∈ A ∧ ∀ k, k < M →
        vals.getD k 0 =
          (st.map (fun p => (segment_values p.2.metrics s).getD k 0)).sum
            / (st.length : ℚ)) := by
  have hperm : (List.insertionSort metrics_row_le (collect_metrics st).1).Perm
      (collect_metrics st).1 := List.perm_insertionSort _ _
  have hmemsegs : ∀ x, x ∈ (List.insertionSort metrics_row_le
      (collect_metrics st).1).map (fun r => r.segment) ↔ x ∈ segs := by
    intro x
    constructor
    · intro hx
      obtain ⟨r, hr, rfl⟩ := List.mem_map.mp hx
      obtain ⟨p, hp, hr'⟩ := mem_collect_metrics st r (hperm.subset hr)
      obtain ⟨q, hq, rfl⟩ := List.mem_map.mp hr'
      rw [← hsegs p hp]
      exact List.mem_map_of_mem _ hq
    · intro hx
      obtain ⟨p₀, st', rfl⟩ : ∃ p₀ st', st = p₀ :: st' := by
        cases st with
        | nil => exact absurd rfl hne
        | cons p₀ st' => exact ⟨p₀, st', rfl⟩
      have hfilter := collect_metrics_filter (p₀ :: st') segs x hsegs hnd hx
      have hrow : (⟨x, segment_values p₀.2.metrics x, p₀.1⟩ : MetricsRow)
          ∈ (collect_metrics (p₀ :: st')).1.filter (fun r => r.segment == x) := by
        rw [hfilter]
        exact List.mem_map_of_mem _ (List.mem_cons_self _ _)
      have hmem := List.mem_of_mem_filter hrow
      exact List.mem_map.mpr ⟨_, (hperm.mem_iff).mpr hmem, rfl⟩
  have hDperm : (((List.insertionSort metrics_row_le (collect_metrics st).1).map
      (fun r => r.segment)).dedup).Perm segs :=
    nodup_perm_of_mem_iff (List.nodup_dedup _) hnd
      (fun x => (List.mem_dedup).trans (hmemsegs x))
  constructor
  · refine ⟨List.insertionSort metrics_row_le (collect_metrics st).1, ?_, ?_, hperm, ?_⟩
    · rw [get_metrics_eq st false]
      rfl
    · exact List.sorted_insertionSort _ _
    · rw [hperm.length_eq]
      exact collect_metrics_length st segs hsegs
  · refine ⟨group_mean (List.insertionSort metrics_row_le (collect_metrics st).1),
      ?_, ?_, ?_⟩
    · rw [get_metrics_eq st true]
      rfl
    · unfold group_mean
      rw [List.length_map, hDperm.length_eq]
    · intro s hs
      have hsD : s ∈ ((List.insertionSort metrics_row_le (collect_metrics st).1).map
          (fun r => r.segment)).dedup := (List.mem_dedup).mpr ((hmemsegs s).mpr hs)
      refine ⟨cols_mean (((List.insertionSort metrics_row_le (collect_metrics st).1).filter
        (fun r => r.segment == s)).map (fun r => r.values)),
        List.mem_map_of_mem _ hsD, ?_⟩
      intro k hk
      have hGperm : ((List.insertionSort metrics_row_le (collect_metrics st).1).filter
          (fun r => r.segment == s)).Perm
          (st.map (fun p => (⟨s, segment_values p.2.metrics s, p.1⟩ : MetricsRow))) := by
        have h1 := hperm.filter (fun r => r.segment == s)
        rw [collect_metrics_filter st segs s hsegs hnd hs] at h1
        exact h1
      have hvs : ((((List.insertionSort metrics_row_le (collect_metrics st).1).filter
          (fun r => r.segment == s)).map (fun r => r.values))).Perm
          (st.map (fun p => segment_values p.2.metrics s)) := by
        have h2 := hGperm.map (fun r => r.values)
        rw [List.map_map] at h2
        exact h2
      have hlenvs : ∀ v ∈ ((List.insertionSort metrics_row_le (collect_metrics st).1).filter
          (fun r => r.segment == s)).map (fun r => r.values), v.length = M := by
        intro v hv
        have hvV := (hvs.mem_iff).mp hv
        obtain ⟨p, hp, rfl⟩ := List.mem_map.mp hvV
        exact segment_values_length p.2.metrics s M
          (by rw [hsegs p hp]; exact hs) (hM p hp)
      have hlen0 : (((List.insertionSort metrics_row_le (collect_metrics st).1).filter
          (fun r => r.segment == s)).map (fun r => r.values)).length = st.length := by
        rw [hvs.length_eq, List.length_map]
      have hvs_ne : ((List.insertionSort metrics_row_le (collect_metrics st).1).filter
          (fun r => r.segment == s)).map (fun r => r.values) ≠ [] := by
        intro hcontra
        rw [hcontra] at hlen0
        exact hne (List.length_eq_zero.mp hlen0.symm)
      have hcslen := cols_sum_length M _ hvs_ne hlenvs
      have hsum : ((((List.insertionSort metrics_row_le (collect_metrics st).1).filter
          (fun r => r.segment == s)).map (fun r => r.values)).map
          (fun v => v.getD k 0)).sum
          = (st.map (fun p => (segment_values p.2.metrics s).getD k 0)).sum := by
        have h3 := (hvs.map (fun v => v.getD k 0)).sum_eq
        rw [List.map_map, List.map_map] at h3
        rw [List.map_map]
        exact h3
      have hklt : k < ((cols_sum (((List.insertionSort metrics_row_le
          (collect_metrics st).1).filter (fun r => r.segment == s)).map
          (fun r => r.values))).map (fun q => q /
          ((((List.insertionSort metrics_row_le (collect_metrics st).1).filter
          (fun r => r.segment == s)).map (fun r => r.values)).length : ℚ))).length := by
        rw [List.length_map, hcslen]
        exact hk
      unfold cols_mean
      rw [List.getD_eq_getElem _ _ hklt, List.getElem_map,
        ← List.getD_eq_getElem _ (0 : ℚ) (by rw [hcslen]; exact hk),
        cols_sum_getD M k hk _ hvs_ne hlenvs, hsum, hlen0]

/-- C7 witness: two folds over segments `"a"` and `"b"` with one metric;
the aggregated value for `"a"` is `(1+3)/2 = 2` and the per-row table is the
sorted four-row table. -/
theorem get_metrics_rows_and_aggregate_witness :
    (∃ R, get_metrics [(0, ⟨0, 3, 4, 5, ⟨[], []⟩, [("a", [1]), ("b", [3])]⟩),
        (1, ⟨0, 5, 6, 7, ⟨[], []⟩, [("a", [3]), ("b", [5])]⟩)] false
        = (Sum.inl R, [(0, ⟨0, 3, 4, 5, ⟨[], []⟩, [("a", [1]), ("b", [3])]⟩),
            (1, ⟨0, 5, 6, 7, ⟨[], []⟩, [("a", [3]), ("b", [5])]⟩)]) ∧
      List.Sorted metrics_row_le R ∧
      R.Perm (collect_metrics [(0, ⟨0, 3, 4, 5, ⟨[], []⟩, [("a", [1]), ("b", [3])]⟩),
        (1, ⟨0, 5, 6, 7, ⟨[], []⟩, [("a", [3]), ("b", [5])]⟩)]).1 ∧
      R.length = [(0, (⟨0, 3, 4, 5, ⟨[], []⟩, [("a", [1]), ("b", [3])]⟩ : FoldResult)),
        (1, ⟨0, 5, 6, 7, ⟨[], []⟩, [("a", [3]), ("b", [5])]⟩)].length * ["a", "b"].length) ∧
    (∃ A, get_metrics [(0, ⟨0, 3, 4, 5, ⟨[], []⟩, [("a", [1]), ("b", [3])]⟩),
        (1, ⟨0, 5, 6, 7, ⟨[], []⟩, [("a", [3]), ("b", [5])]⟩)] true
        = (Sum.inr A, [(0, ⟨0, 3, 4, 5, ⟨[], []⟩, [("a", [1]), ("b", [3])]⟩),
            (1, ⟨0, 5, 6, 7, ⟨[], []⟩, [("a", [3]), ("b", [5])]⟩)]) ∧
      A.length = ["a", "b"].length ∧
      ∀ s ∈ ["a", "b"], ∃ vals, (s, vals) ∈ A ∧ ∀ k, k < 1 →
        vals.getD k 0 =
          ([(0, (⟨0, 3, 4, 5, ⟨[], []⟩, [("a", [1]), ("b", [3])]⟩ : FoldResult)),
            (1, ⟨0, 5, 6, 7, ⟨[], []⟩, [("a", [3]), ("b", [5])]⟩)].map
            (fun p => (segment_values p.2.metrics s).getD k 0)).sum
            / (([(0, (⟨0, 3, 4, 5, ⟨[], []⟩, [("a", [1]), ("b", [3])]⟩ : FoldResult)),
              (1, ⟨0, 5, 6, 7, ⟨[], []⟩, [("a", [3]), ("b", [5])]⟩)].length : ℚ))) :=
  get_metrics_rows_and_aggregate
    [(0, ⟨0, 3, 4, 5, ⟨[], []⟩, [("a", [1]), ("b", [3])]⟩),
     (1, ⟨0, 5, 6, 7, ⟨[], []⟩, [("a", [3]), ("b", [5])]⟩)]
    ["a", "b"] 1 (by decide) (by decide) (by decide) (by decide)

end Etna

